import Mathlib

/-
Verification of the interactive viewer/annotator core of the
extraction_mapping repository (PDF/image OCR + annotation web app).

The embedding translates the TypeScript source into Lean:
 - coordinates are rationals (exact arithmetic standing in for JS floats),
 - JS strings are Lean strings processed as character lists,
 - JSON-ish duck-typed payloads are an inductive `Json` type,
 - React state updates become explicit state-passing functions.

Source files referenced below:
 - frontend/src/components/ImageAnnotator.tsx (first component revision,
   lines 1-1399): coordinate transforms, hit-testing, drawing/resizing
   gesture handlers.
 - the page-level component (src/unnamed/part_005): page selection,
   annotation CRUD callbacks, batch annotation processing.
-/

namespace ExtractionMapping

/-! ## Character/string primitives

JavaScript string operations (`toLowerCase`, `includes`, `trim`,
`split`, `parseInt`) are modelled on `List Char` by structural
recursion so that all of them compute.
-/

/-- Does the first list occur as a leading segment of the second? -/
def charsStartWith : List Char → List Char → Bool
  | [], _ => true
  | _ :: _, [] => false
  | a :: as, b :: bs => a == b && charsStartWith as bs

/-- Does `needle` occur contiguously anywhere inside `hay`?
Models JavaScript `hay.includes(needle)` for strings. -/
def charsContain (hay needle : List Char) : Bool :=
  match hay with
  | [] => needle.isEmpty
  | _ :: rest => charsStartWith needle hay || charsContain rest needle

/-- JavaScript `hay.includes(needle)` on strings. -/
def strContains (hay needle : String) : Bool :=
  charsContain hay.data needle.data

/-- JavaScript `s.toLowerCase()` (ASCII case folding, which is all the
source compares). -/
def jsToLower (s : String) : String :=
  ⟨s.data.map Char.toLower⟩

/-- JavaScript `s.trim()`: strip leading and trailing whitespace. -/
def jsTrim (s : String) : String :=
  ⟨((s.data.dropWhile Char.isWhitespace).reverse.dropWhile Char.isWhitespace).reverse⟩

/-- Split a character list at every occurrence of the separator
character.  Models JavaScript `s.split(sep)` for the single-character
separators ("," and "-") used by the source. -/
def splitOnChar (sep : Char) : List Char → List (List Char)
  | [] => [[]]
  | c :: rest =>
    let tail := splitOnChar sep rest
    if c == sep then
      [] :: tail
    else
      match tail with
      | [] => [[c]]
      | g :: gs => (c :: g) :: gs

/-- JavaScript `s.split(sep)` for a one-character separator. -/
def jsSplit (s : String) (sep : Char) : List String :=
  (splitOnChar sep s.data).map List.asString

/-- Numeric value of a decimal digit character. -/
def digitVal (c : Char) : Nat := c.toNat - 48

/-- Is the character a hexadecimal digit? -/
def isHexDigit (c : Char) : Bool :=
  c.isDigit || ('a' ≤ c && c ≤ 'f') || ('A' ≤ c && c ≤ 'F')

/-- Numeric value of a hexadecimal digit character. -/
def hexVal (c : Char) : Nat :=
  if c.isDigit then c.toNat - 48
  else if 'a' ≤ c && c ≤ 'f' then c.toNat - 87
  else c.toNat - 55

/-- Accumulate a digit list into a natural number in the given base. -/
def digitsToNat (base : Nat) (dv : Char → Nat) (ds : List Char) : Nat :=
  ds.foldl (fun acc c => acc * base + dv c) 0

/-- JavaScript `parseInt(s)` (radix unspecified): skip whitespace, read
an optional sign, auto-detect a `0x`/`0X` hexadecimal literal, then
read as many digits as possible, ignoring trailing garbage.  `none`
models the `NaN` result when no digit is found. -/
def jsParseInt (s : String) : Option Int :=
  let cs := (jsTrim s).data
  let signAndRest : Int × List Char :=
    match cs with
    | '-' :: rest => (-1, rest)
    | '+' :: rest => (1, rest)
    | _ => (1, cs)
  let sign := signAndRest.1
  match signAndRest.2 with
  | '0' :: c :: rest =>
    if c == 'x' || c == 'X' then
      let ds := rest.takeWhile isHexDigit
      if ds.isEmpty then none
      else some (sign * (digitsToNat 16 hexVal ds : Nat))
    else
      some (sign * (digitsToNat 10 digitVal (('0' :: c :: rest).takeWhile Char.isDigit) : Nat))
  | other =>
    let ds := other.takeWhile Char.isDigit
    if ds.isEmpty then none
    else some (sign * (digitsToNat 10 digitVal ds : Nat))

/-! ## Page selection (part_005, `handlePageSelect`, lines 569-649) -/

/-- Integer range `[s, e]`, the pages visited by
`for (let i = start; i <= end; i++)`. -/
def intRange (s e : Int) : List Int :=
  (List.range (e + 1 - s).toNat).map (fun (k : Nat) => s + (k : Int))

/-- Pages contributed by one comma-separated part of the selection
string, with the `i > 0 && i <= total_pages` in-range filter applied at
push time exactly as the source does.  A part containing "-" is treated
as a range whose first two "-"-separated pieces are parsed; a `NaN`
bound yields no iterations. -/
def pagesOfPart (total : Int) (part : String) : List Int :=
  if strContains part "-" then
    match jsSplit part '-' with
    | a :: b :: _ =>
      match jsParseInt (jsTrim a), jsParseInt (jsTrim b) with
      | some s, some e => (intRange s e).filter (fun i => 0 < i && i ≤ total)
      | _, _ => []
    | _ => []
  else
    match jsParseInt (jsTrim part) with
    | some p => if 0 < p && p ≤ total then [p] else []
    | none => []

/-- Remove duplicates keeping first occurrences, as iterating a
JavaScript `Set` does. -/
def jsSetDedupAux (seen : List Int) : List Int → List Int
  | [] => []
  | x :: xs =>
    if x ∈ seen then jsSetDedupAux seen xs
    else x :: jsSetDedupAux (x :: seen) xs

/-- Models `[...new Set(l)]`. -/
def jsSetDedup (l : List Int) : List Int :=
  jsSetDedupAux [] l

/-- The `selected_pages` list computed by `handlePageSelect`: "all"
(case-insensitively) expands to every page, otherwise the
comma-separated parts are expanded and filtered in-range; the result is
deduplicated and sorted ascending. -/
def parsePages (selection : String) (total : Int) : List Int :=
  let base :=
    if jsToLower selection == "all" then intRange 1 total
    else ((jsSplit selection ',').map (pagesOfPart total)).flatten
  List.insertionSort (· ≤ ·) (jsSetDedup base)

/-- Specification-side reading of one selection part: the pages it
names, before any in-range filtering — a dash part names the whole
closed range between its parsed endpoints, a plain part names its
parsed value. -/
def namedOfPart (part : String) : List Int :=
  if strContains part "-" then
    match jsSplit part '-' with
    | a :: b :: _ =>
      match jsParseInt (jsTrim a), jsParseInt (jsTrim b) with
      | some s, some e => intRange s e
      | _, _ => []
    | _ => []
  else
    match jsParseInt (jsTrim part) with
    | some p => [p]
    | none => []

/-- Specification-side comparandum: the pages a selection string names,
before any in-range filtering ("all" names `1..N`).  The claim is that
`parsePages` keeps exactly the in-range named pages. -/
def namedPages (selection : String) (total : Int) : List Int :=
  if jsToLower selection == "all" then intRange 1 total
  else ((jsSplit selection ',').map namedOfPart).flatten

/-- The slice of `processingState` that `handlePageSelect` touches. -/
structure PageSelectState where
  currentPage : Int
  processedPages : List Int
  errorMsg : Option String
deriving DecidableEq, Repr

/-- Models `handlePageSelect` (part_005 lines 569-649): parse the selection;
an empty result throws "No valid pages selected", which the catch block
records as the error message without touching the page state; otherwise
the current page becomes `selected_pages[0]` and the parsed list is
stored. -/
def handlePageSelect (selection : String) (total : Int)
    (st : PageSelectState) : PageSelectState :=
  let pages := parsePages selection total
  if pages.isEmpty then
    { st with errorMsg := some "No valid pages selected" }
  else
    { currentPage := pages.headD 0
      processedPages := pages
      errorMsg := none }

/-! ## JSON values and duck-typed access

The extraction service's response payload is inspected by duck typing
in `handleProcessAnnotations` (part_005 lines 1017-1044).  `Json`
models the JavaScript values involved; `none` from an accessor models
`undefined`. -/

mutual

/-- A JSON-ish JavaScript value (arrays and objects carry their own
spine types so that equality is derivable). -/
inductive Json where
  | null
  | bool (b : Bool)
  | num (q : ℚ)
  | str (s : String)
  | arr (elems : JsonList)
  | obj (fields : JsonFields)
deriving DecidableEq, Repr

/-- The elements of a JSON array. -/
inductive JsonList where
  | nil
  | cons (hd : Json) (tl : JsonList)
deriving DecidableEq, Repr

/-- The key/value fields of a JSON object. -/
inductive JsonFields where
  | nil
  | cons (k : String) (v : Json) (tl : JsonFields)
deriving DecidableEq, Repr

end

/-- The first field with the given key, if any. -/
def fieldLookup : JsonFields → String → Option Json
  | .nil, _ => none
  | .cons k v tl, key => if k == key then some v else fieldLookup tl key

/-- Is the given value an element of the array spine? -/
def jsonListHas (x : Json) : JsonList → Bool
  | .nil => false
  | .cons h t => decide (h = x) || jsonListHas x t

/-- JavaScript truthiness: `null`, `false`, `0` and `""` are falsy;
arrays and objects are always truthy. -/
def jsTruthy : Json → Bool
  | .null => false
  | .bool b => b
  | .num q => decide (q ≠ 0)
  | .str s => !s.data.isEmpty
  | .arr _ => true
  | .obj _ => true

/-- Property access `v.k`: defined on objects, `undefined` (`none`)
elsewhere (accessing a property of a primitive neither throws nor
yields a value the source goes on to use). -/
def getField : Json → String → Option Json
  | .obj fs, k => fieldLookup fs k
  | _, _ => none

/-- Index access `v[0]`: first element of an array, the "0" property
of an object, the first character of a string, `undefined` otherwise. -/
def jsIndexZero : Json → Option Json
  | .arr (.cons h _) => some h
  | .arr .nil => none
  | .obj fs => fieldLookup fs "0"
  | .str s => s.data.head?.map (fun c => Json.str ⟨[c]⟩)
  | _ => none

/-- JavaScript `v.includes(needle)`: substring test on strings,
membership test on arrays; on any other receiver the call throws a
`TypeError`, modelled by `none`. -/
def jsIncludes (v : Json) (needle : String) : Option Bool :=
  match v with
  | .str s => some (strContains s needle)
  | .arr xs => some (jsonListHas (Json.str needle) xs)
  | _ => none

/-- The value reached by the source's case-3 probe
`response.data.result[0].text_lines[0].text` with all of its
truthiness guards (`Array.isArray(result) && result[0] &&
result[0].text_lines && result[0].text_lines[0] &&
result[0].text_lines[0].text`); `none` when any guard fails. -/
def caseThreeTextValue (res : Json) : Option Json :=
  match res with
  | .arr (.cons x _) =>
    if jsTruthy x then
      match getField x "text_lines" with
      | some tl =>
        if jsTruthy tl then
          match jsIndexZero tl with
          | some tl0 =>
            if jsTruthy tl0 then
              match getField tl0 "text" with
              | some t => if jsTruthy t then some t else none
              | none => none
            else none
          | none => none
        else none
      | none => none
    else none
  | _ => none

/-- The `hasError` detection of `handleProcessAnnotations` (part_005
lines 1017-1044), run on a 2xx response's `result` value: case 1 is a
strict `result.error === true`, case 2 a truthy string
`diag_description` whose lower-casing contains "error", case 3 the
first-text-line probe followed by `.includes('Error')`.  `none` models
the `TypeError` thrown when the probe reaches a truthy value that has
no `includes` method; that exception is caught by the surrounding
`catch (apiError)` block. -/
def hasErrorDetect (result : Json) : Option Bool :=
  if !jsTruthy result then some false
  else if getField result "error" = some (Json.bool true) then some true
  else if (match getField result "diag_description" with
           | some (Json.str s) => !s.data.isEmpty && strContains (jsToLower s) "error"
           | _ => false) then some true
  else
    match caseThreeTextValue result with
    | some t => jsIncludes t "Error"
    | none => some false

/-! ## Annotation records and batch processing (part_005) -/

/-- A bounding box `[x1, y1, x2, y2]` in image pixel space. -/
@[ext]
structure Bbox where
  x1 : ℚ
  y1 : ℚ
  x2 : ℚ
  y2 : ℚ
deriving DecidableEq, Repr

/-- The annotation type enum: 'text' | 'table' | 'diagram'. -/
inductive AnnType where
  | text
  | table
  | diagram
deriving DecidableEq, Repr

/-- An annotation record (types/pdf.ts `Annotation`; the transient UI
flags are not modelled). -/
structure Ann where
  id : String
  atype : AnnType
  bbox : Bbox
  processed : Bool
  hasError : Bool
  result : Option Json
deriving DecidableEq, Repr

/-- Build a JSON array from a Lean list. -/
def jarr (l : List Json) : Json :=
  .arr (l.foldr JsonList.cons .nil)

/-- Build a JSON object from a Lean association list. -/
def jobj (l : List (String × Json)) : Json :=
  .obj (l.foldr (fun p t => JsonFields.cons p.1 p.2 t) .nil)

/-- A bbox as the JSON array the source embeds in fallback payloads. -/
def bboxJson (b : Bbox) : Json :=
  jarr [.num b.x1, .num b.y1, .num b.x2, .num b.y2]

/-- The fallback result built in the `catch (apiError)` handler
(part_005 lines 1086-1113), shaped by annotation type. -/
def fallbackResult (t : AnnType) (bb : Bbox) : Json :=
  match t with
  | .diagram =>
    jobj [("diag_heading", .str "Diagram Annotation"),
          ("diag_description", .str "Unable to process diagram due to server error."),
          ("annotations", jarr [jobj [("marking", .str "Error"),
                                      ("description", .str "Server error occurred during processing")]])]
  | .text =>
    jarr [jobj [("text_lines", jarr [jobj [("text", .str "Unable to process text due to server error."),
                                           ("confidence", .num 1),
                                           ("bbox", bboxJson bb),
                                           ("polygon", jarr [jarr [.num bb.x1, .num bb.y1],
                                                             jarr [.num bb.x2, .num bb.y1],
                                                             jarr [.num bb.x2, .num bb.y2],
                                                             jarr [.num bb.x1, .num bb.y2]])]]),
          ("languages", jarr [.str "en"]),
          ("image_bbox", jarr [.num 0, .num 0, .num 1000, .num 1000])]]
  | .table =>
    jarr [.str "<table><tr><td>Error processing table</td></tr></table>"]

/-- Mark an annotation processed with the given result and error flag
(the `setProcessingState` record update common to all three outcome
paths). -/
def markProcessed (res : Json) (he : Bool) (a : Ann) : Ann :=
  { a with processed := true, result := some res, hasError := he }

/-- Replace the first list entry with the given id using `f`, as
`findIndex` + index assignment does; an absent id changes nothing. -/
def updateFirstById (l : List Ann) (i : String) (f : Ann → Ann) : List Ann :=
  match l with
  | [] => []
  | a :: as => if a.id == i then f a :: as else a :: updateFirstById as i f

/-- How one extraction round-trip for an annotation can go: a 2xx
response carrying a result value, a failed/timed-out HTTP call
(`catch (apiError)`), or a failure before the call, e.g. in cropping
(`catch (annotationError)`, which records `{ error: message }`). -/
inductive CallOutcome where
  | ok (result : Json)
  | httpFail
  | cropFail (msg : String)
deriving DecidableEq, Repr

/-- The error flag and stored result an annotation receives from its
own outcome: a 2xx result is stored as-is with the detected flag; a
detection `TypeError` and an HTTP failure store the type-shaped
fallback with the flag set; a pre-call failure stores
`{ error: message }` with the flag set. -/
def outcomeFlag (t : AnnType) (bb : Bbox) : CallOutcome → Bool × Json
  | .ok res =>
    match hasErrorDetect res with
    | some b => (b, res)
    | none => (true, fallbackResult t bb)
  | .httpFail => (true, fallbackResult t bb)
  | .cropFail msg => (true, jobj [("error", Json.str msg)])

/-- Process a single annotation from the pending snapshot against the
current list (one iteration of the `for` loop of
`handleProcessAnnotations`, part_005 lines 976-1182). -/
def processOne (anns : List Ann) (a : Ann) (oc : CallOutcome) : List Ann :=
  match oc with
  | .ok res =>
    match hasErrorDetect res with
    | some b => updateFirstById anns a.id (markProcessed res b)
    | none => updateFirstById anns a.id (markProcessed (fallbackResult a.atype a.bbox) true)
  | .httpFail => updateFirstById anns a.id (markProcessed (fallbackResult a.atype a.bbox) true)
  | .cropFail msg => updateFirstById anns a.id (markProcessed (jobj [("error", Json.str msg)]) true)

/-- Models `handleProcessAnnotations` (part_005 lines 955-1209): snapshot the
unprocessed annotations of the page, then process them sequentially,
each through its own try/catch.  `oc` gives each annotation's outcome. -/
def handleProcessAnns (oc : String → CallOutcome) (anns : List Ann) : List Ann :=
  (anns.filter (fun a => !a.processed)).foldl (fun acc a => processOne acc a (oc a.id)) anns

/-! ### Specification-side readings for the error-detection claim -/

/-- Specification-side: the first text line's text, read off the
plainly-shaped result (an array whose head has a `text_lines` array
whose head has a string `text`). -/
def firstTextLineText (res : Json) : Option String :=
  match res with
  | .arr (.cons x _) =>
    match getField x "text_lines" with
    | some (.arr (.cons tl0 _)) =>
      match getField tl0 "text" with
      | some (.str t) => some t
      | _ => none
    | _ => none
  | _ => none

/-- Specification-side: the claim's three error conditions — an
explicit `result.error === true` flag, a diagram description containing
"error" case-insensitively, or a first text line whose text contains
"Error". -/
def hasErrorSpecB (res : Json) : Bool :=
  decide (getField res "error" = some (Json.bool true))
  || (match getField res "diag_description" with
      | some (Json.str s) => strContains (jsToLower s) "error"
      | _ => false)
  || (match firstTextLineText res with
      | some t => strContains t "Error"
      | none => false)

/-- The error flag an annotation actually ends up with after a 2xx
response: the detected flag, or `true` when the detection itself threw
(the caught exception takes the fallback path). -/
def processedHasError (res : Json) : Bool :=
  match hasErrorDetect res with
  | some b => b
  | none => true

/-- The code-side case-3 verdict folded over the `TypeError` path: the
probe's `includes('Error')` result, with a throwing probe counting as
an error mark (because the exception is caught and flags the
annotation). -/
def caseThreeB (res : Json) : Bool :=
  match caseThreeTextValue res with
  | some t => (jsIncludes t "Error").getD true
  | none => false

/-- Code-side case 1: `result.error === true`. -/
def errorFlagB (res : Json) : Bool :=
  getField res "error" == some (Json.bool true)

/-- Code-side case 2: a truthy string `diag_description` whose
lower-casing contains "error". -/
def diagErrorB (res : Json) : Bool :=
  match getField res "diag_description" with
  | some (Json.str s) => !s.data.isEmpty && strContains (jsToLower s) "error"
  | _ => false

/-! ## Coordinate transforms (ImageAnnotator.tsx)

Coordinates are exact rationals.  The view state bundles everything the
render effect and `getMousePosition` read: rotation, zoom, pan, the
canvas buffer size, the OCR reference size behind the stored
`xScale`/`yScale` factors, and the canvas's CSS layout box (the canvas
sits in a container styled `transform: translate(pan) scale(zoom)`
with `transformOrigin: center center`, line 1367). -/

/-- A 2D point. -/
@[ext]
structure Pt where
  x : ℚ
  y : ℚ
deriving DecidableEq, Repr

/-- View-transform state of the annotator. -/
structure ViewT where
  rot : Int
  zoom : ℚ
  panX : ℚ
  panY : ℚ
  canvasW : ℚ
  canvasH : ℚ
  ocrW : ℚ
  ocrH : ℚ
  cssW : ℚ
  cssH : ℚ
  left0 : ℚ
  top0 : ℚ
deriving DecidableEq, Repr

/-- Models `isRotated90or270` (line 85). -/
def isRot90or270 (r : Int) : Bool :=
  r == 90 || r == 270

/-- The `xScaleFactor` stored in `canvas.dataset.xScale`
(lines 233-244). -/
def xScaleFactor (v : ViewT) : ℚ :=
  if isRot90or270 v.rot then v.canvasH / v.ocrW else v.canvasW / v.ocrW

/-- The `yScaleFactor` stored in `canvas.dataset.yScale`
(lines 233-244). -/
def yScaleFactor (v : ViewT) : ℚ :=
  if isRot90or270 v.rot then v.canvasW / v.ocrH else v.canvasH / v.ocrH

/-- A rectangle in canvas buffer coordinates. -/
@[ext]
structure CanvasRect where
  x : ℚ
  y : ℚ
  w : ℚ
  h : ℚ
deriving DecidableEq, Repr

/-- The per-rotation forward box transform of the render effect
(lines 254-287, identically at 318-345): image-space bbox to the
canvas rectangle that is drawn. -/
def boxToCanvas (v : ViewT) (bb : Bbox) : CanvasRect :=
  let xs := xScaleFactor v
  let ys := yScaleFactor v
  if v.rot = 90 then
    ⟨v.canvasW - (bb.y1 + (bb.y2 - bb.y1)) * ys, bb.x1 * xs,
     (bb.y2 - bb.y1) * ys, (bb.x2 - bb.x1) * xs⟩
  else if v.rot = 180 then
    ⟨v.canvasW - (bb.x1 + (bb.x2 - bb.x1)) * xs, v.canvasH - (bb.y1 + (bb.y2 - bb.y1)) * ys,
     (bb.x2 - bb.x1) * xs, (bb.y2 - bb.y1) * ys⟩
  else if v.rot = 270 then
    ⟨bb.y1 * ys, v.canvasH - (bb.x1 + (bb.x2 - bb.x1)) * xs,
     (bb.y2 - bb.y1) * ys, (bb.x2 - bb.x1) * xs⟩
  else
    ⟨bb.x1 * xs, bb.y1 * ys, (bb.x2 - bb.x1) * xs, (bb.y2 - bb.y1) * ys⟩

/-- The forward transform on a single image-space point: the top-left
corner of the degenerate box `[x, y, x, y]` under `boxToCanvas`. -/
def toCanvasPt (v : ViewT) (p : Pt) : Pt :=
  let r := boxToCanvas v ⟨p.x, p.y, p.x, p.y⟩
  ⟨r.x, r.y⟩

/-- Models `canvas.getBoundingClientRect().left`: the CSS transform
`translate(pan) scale(zoom)` about the element center maps a local
viewport coordinate `q` to `pan + center + zoom * (q - center)`, so
the transformed box's left edge sits at
`pan.x + left0 + (cssW / 2) * (1 - zoom)`. -/
def rectLeft (v : ViewT) : ℚ :=
  v.panX + v.left0 + (v.cssW / 2) * (1 - v.zoom)

/-- Models `canvas.getBoundingClientRect().top`, analogously. -/
def rectTop (v : ViewT) : ℚ :=
  v.panY + v.top0 + (v.cssH / 2) * (1 - v.zoom)

/-- Models `canvas.getBoundingClientRect().width = zoom * cssW`. -/
def rectW (v : ViewT) : ℚ :=
  v.zoom * v.cssW

/-- Models `canvas.getBoundingClientRect().height = zoom * cssH`. -/
def rectH (v : ViewT) : ℚ :=
  v.zoom * v.cssH

/-- Where a canvas-buffer point is rendered in client (pointer event)
coordinates: the buffer is laid out linearly onto the transformed
bounding box, so a buffer fraction `c / canvasW` lands at
`rect.left + (c / canvasW) * rect.width`. -/
def clientOfCanvas (v : ViewT) (c : Pt) : Pt :=
  ⟨rectLeft v + (c.x / v.canvasW) * rectW v,
   rectTop v + (c.y / v.canvasH) * rectH v⟩

/-- Models `getMousePosition` (lines 724-776): client coordinates to image
coordinates — relative position in the bounding rect, minus pan,
divided by zoom, scaled to buffer coordinates, inverse-rotated, then
divided by the stored scale factors. -/
def getMousePosition (v : ViewT) (client : Pt) : Pt :=
  let browserX := client.x - rectLeft v
  let browserY := client.y - rectTop v
  let adjX := (browserX - v.panX) / v.zoom
  let adjY := (browserY - v.panY) / v.zoom
  let canvasX := adjX * (v.canvasW / rectW v)
  let canvasY := adjY * (v.canvasH / rectH v)
  let imgXY : ℚ × ℚ :=
    if v.rot = 90 then (canvasY, v.canvasW - canvasX)
    else if v.rot = 180 then (v.canvasW - canvasX, v.canvasH - canvasY)
    else if v.rot = 270 then (v.canvasH - canvasY, canvasX)
    else (canvasX, canvasY)
  ⟨imgXY.1 / xScaleFactor v, imgXY.2 / yScaleFactor v⟩

/-- The claim's round trip: image point, forward to canvas, out to the
screen through the CSS layout, back through the pointer mapping. -/
def roundTrip (v : ViewT) (p : Pt) : Pt :=
  getMousePosition v (clientOfCanvas v (toCanvasPt v p))

/-! ## OCR text-line hit-testing (`findBoxAtPosition`, lines 778-837) -/

/-- An OCR text line (only the fields hit-testing reads). -/
structure TextLine where
  text : String
  bbox : Bbox
deriving DecidableEq, Repr

/-- Models `margin = Math.max(3, 8 / zoomLevel)` (line 782). -/
def marginFor (zoom : ℚ) : ℚ :=
  max 3 (8 / zoom)

/-- Is the point inside the box inflated by the margin (line 789)? -/
def isNearbyB (m : ℚ) (p : Pt) (l : TextLine) : Bool :=
  decide (l.bbox.x1 - m ≤ p.x) && decide (p.x ≤ l.bbox.x2 + m) &&
  decide (l.bbox.y1 - m ≤ p.y) && decide (p.y ≤ l.bbox.y2 + m)

/-- Is the point directly inside the box (line 806)? -/
def containsPtB (l : TextLine) (p : Pt) : Bool :=
  decide (l.bbox.x1 ≤ p.x) && decide (p.x ≤ l.bbox.x2) &&
  decide (l.bbox.y1 ≤ p.y) && decide (p.y ≤ l.bbox.y2)

/-- Box area, the direct-hit sort key (lines 811-815). -/
def boxArea (l : TextLine) : ℚ :=
  (l.bbox.x2 - l.bbox.x1) * (l.bbox.y2 - l.bbox.y1)

/-- Squared distance from the point to the box center, the near-miss
sort key (lines 819-836). -/
def centerDist2 (p : Pt) (l : TextLine) : ℚ :=
  ((l.bbox.x1 + l.bbox.x2) / 2 - p.x) ^ 2 + ((l.bbox.y1 + l.bbox.y2) / 2 - p.y) ^ 2

/-- First element minimizing `f`: what taking `[0]` of a stable sort
by the comparator `f a - f b` returns. -/
def firstMinBy (f : α → ℚ) : List α → Option α
  | [] => none
  | x :: xs => some (xs.foldl (fun best y => if f y < f best then y else best) x)

/-- Models `findBoxAtPosition` (lines 778-837): filter candidates within the
zoom-dependent margin; none means no target; direct hits win and are
resolved by smallest area; otherwise near-misses are resolved by
nearest box center. -/
def findBoxAtPosition (zoom : ℚ) (lines : List TextLine) (p : Pt) : Option TextLine :=
  let m := marginFor zoom
  let nearby := lines.filter (isNearbyB m p)
  if nearby.isEmpty then none
  else
    let direct := nearby.filter (fun l => containsPtB l p)
    if !direct.isEmpty then firstMinBy boxArea direct
    else firstMinBy (centerDist2 p) nearby

/-! ## Annotation hit-testing (`findAnnotationAtPosition`, lines 840-953) -/

/-- An interaction handle: body move, one of the four corner resize
handles, or the delete control. -/
inductive Handle where
  | move
  | tl
  | tr
  | bl
  | br
  | del
deriving DecidableEq, Repr

/-- Top-left corner of the 16px delete button, positioned per rotation
with 5px padding (lines 866-897). -/
def deleteButtonPos (rot : Int) (sx sy sw sh : ℚ) : ℚ × ℚ :=
  if rot = 90 then (sx + 5, sy + 5)
  else if rot = 180 then (sx + 5, sy + sh - 16 - 5)
  else if rot = 270 then (sx + sw - 16 - 5, sy + sh - 16 - 5)
  else (sx + sw - 16 - 5, sy + 5)

/-- Control hit-test against the selected annotation, in scaled canvas
coordinates: the delete button first, then the four corner handles
(half-width 8), in source order (lines 850-938).  `none` when the
point is on none of them. -/
def handleOfSelected (xs ys : ℚ) (rot : Int) (sel : Ann) (p : Pt) : Option Handle :=
  let sx := sel.bbox.x1 * xs
  let sy := sel.bbox.y1 * ys
  let sw := (sel.bbox.x2 - sel.bbox.x1) * xs
  let sh := (sel.bbox.y2 - sel.bbox.y1) * ys
  let cx := p.x * xs
  let cy := p.y * ys
  let db := deleteButtonPos rot sx sy sw sh
  if db.1 ≤ cx ∧ cx ≤ db.1 + 16 ∧ db.2 ≤ cy ∧ cy ≤ db.2 + 16 then some .del
  else if |cx - sx| ≤ 8 ∧ |cy - sy| ≤ 8 then some .tl
  else if |cx - (sx + sw)| ≤ 8 ∧ |cy - sy| ≤ 8 then some .tr
  else if |cx - sx| ≤ 8 ∧ |cy - (sy + sh)| ≤ 8 then some .bl
  else if |cx - (sx + sw)| ≤ 8 ∧ |cy - (sy + sh)| ≤ 8 then some .br
  else none

/-- Does the bbox contain the point (line 947)? -/
def bboxContains (bb : Bbox) (p : Pt) : Bool :=
  decide (bb.x1 ≤ p.x) && decide (p.x ≤ bb.x2) &&
  decide (bb.y1 ≤ p.y) && decide (p.y ≤ bb.y2)

/-- Models `findAnnotationAtPosition` (lines 840-953; the source name ends in
a reserved word, hence the short form): with a selected annotation in
edit mode, its delete control and corner handles are tested first;
otherwise the loop from the end of the list returns the topmost
annotation containing the point as a body-move hit. -/
def findAnnAtPosition (xs ys : ℚ) (rot : Int) (mode : Bool)
    (selId : Option String) (anns : List Ann) (p : Pt) : Option (Ann × Handle) :=
  if anns.isEmpty then none
  else
    let fromHandles : Option (Ann × Handle) :=
      match selId, mode with
      | some s, true =>
        match anns.find? (fun a => a.id == s) with
        | some selAnn => (handleOfSelected xs ys rot selAnn p).map (fun h => (selAnn, h))
        | none => none
      | _, _ => none
    match fromHandles with
    | some r => some r
    | none => (anns.reverse.find? (fun a => bboxContains a.bbox p)).map (fun a => (a, Handle.move))

/-! ## The drawing/moving/resizing gesture machine
(mouse handlers, lines 956-1162, with the parent's annotation
callbacks from part_005 lines 806-882) -/

/-- Move the whole box by the pointer delta (case 'move',
line 1032-1035). -/
def moveBbox (bb : Bbox) (dx dy : ℚ) : Bbox :=
  ⟨bb.x1 + dx, bb.y1 + dy, bb.x2 + dx, bb.y2 + dy⟩

/-- The per-handle bbox update of `handleCanvasMouseMove`
(lines 1031-1052): each resize clamps the two free coordinates with
`min`/`max` against the opposite fixed corner.  The delete handle
never reaches this switch; it is mapped to the identity. -/
def resizeBbox (h : Handle) (bb : Bbox) (dx dy : ℚ) : Bbox :=
  match h with
  | .move => moveBbox bb dx dy
  | .tl => ⟨min (bb.x1 + dx) bb.x2, min (bb.y1 + dy) bb.y2, bb.x2, bb.y2⟩
  | .tr => ⟨bb.x1, min (bb.y1 + dy) bb.y2, max (bb.x2 + dx) bb.x1, bb.y2⟩
  | .bl => ⟨min (bb.x1 + dx) bb.x2, bb.y1, bb.x2, max (bb.y2 + dy) bb.y1⟩
  | .br => ⟨bb.x1, bb.y1, max (bb.x2 + dx) bb.x1, max (bb.y2 + dy) bb.y1⟩
  | .del => bb

/-- The create-branch of `handleCanvasMouseUp` (lines 1104-1121):
`none` when either dimension of the dragged rectangle is not strictly
greater than 10 image pixels, otherwise the min/max-normalized bbox. -/
def dragCreateBbox (startP pos : Pt) : Option Bbox :=
  if 10 < |pos.x - startP.x| ∧ 10 < |pos.y - startP.y| then
    some ⟨min startP.x pos.x, min startP.y pos.y, max startP.x pos.x, max startP.y pos.y⟩
  else none

/-- Context the handlers close over: annotation mode, the armed
annotation type, the stored scale factors and the rotation. -/
structure GestureCtx where
  mode : Bool
  curType : AnnType
  xs : ℚ
  ys : ℚ
  rot : Int
deriving DecidableEq, Repr

/-- The mutable state the gesture handlers touch: the component-local
drawing state plus the parent-owned annotation list.  `nextId` models
`uuidv4()` as a counter-derived fresh id. -/
structure UIState where
  isDrawing : Bool
  startPoint : Option Pt
  currentPoint : Option Pt
  selAnnId : Option String
  resHandle : Option Handle
  initialBbox : Option Bbox
  anns : List Ann
  nextId : Nat
deriving DecidableEq, Repr

/-- The fresh id `uuidv4()` is modelled to return. -/
def freshId (n : Nat) : String :=
  "ann-" ++ toString n

/-- Parent `handleCreateAnnotation` (part_005 lines 806-828): append a
new annotation with a fresh id. -/
def createAnn (t : AnnType) (bb : Bbox) (st : UIState) : UIState :=
  { st with
    anns := st.anns ++ [{ id := freshId st.nextId, atype := t, bbox := bb,
                          processed := false, hasError := false, result := none }],
    nextId := st.nextId + 1 }

/-- Parent `handleUpdateAnnotation` (part_005 lines 830-854): map over
the list replacing the bbox of the matching id. -/
def updateAnnBbox (i : String) (bb : Bbox) (l : List Ann) : List Ann :=
  l.map (fun a => if a.id == i then { a with bbox := bb } else a)

/-- Parent `handleDeleteAnnotation` (part_005 lines 856-875): filter
the id out. -/
def deleteAnn (i : String) (l : List Ann) : List Ann :=
  l.filter (fun a => !(a.id == i))

/-- Models `handleCanvasMouseDown` (lines 956-1008), annotation-mode branch:
a delete-control hit removes the annotation and clears the selection;
any other hit selects the annotation and starts a move/resize drag;
empty space clears the selection and starts drawing. -/
def handleCanvasMouseDown (ctx : GestureCtx) (st : UIState) (pos : Pt) : UIState :=
  if ctx.mode then
    match findAnnAtPosition ctx.xs ctx.ys ctx.rot ctx.mode st.selAnnId st.anns pos with
    | some (a, Handle.del) =>
      { st with anns := deleteAnn a.id st.anns, selAnnId := none }
    | some (a, h) =>
      { st with selAnnId := some a.id, resHandle := some h, initialBbox := some a.bbox,
                isDrawing := true, startPoint := some pos, currentPoint := some pos }
    | none =>
      { st with selAnnId := none, resHandle := none, initialBbox := none,
                isDrawing := true, startPoint := some pos, currentPoint := some pos }
  else st

/-- Models `handleCanvasMouseMove` (lines 1010-1090), annotation-mode branch:
while drawing with an active move/resize handle, the annotation's bbox
is updated live from the initial bbox and the cumulative pointer
delta; otherwise only the tracked current point changes (the
hover/cursor styling of the non-drawing branch is not modelled). -/
def handleCanvasMouseMove (ctx : GestureCtx) (st : UIState) (pos : Pt) : UIState :=
  if ctx.mode then
    if st.isDrawing then
      let st2 := { st with currentPoint := some pos }
      match st.selAnnId, st.resHandle, st.initialBbox, st.startPoint with
      | some selId, some h, some ibb, some sp =>
        { st2 with anns := updateAnnBbox selId (resizeBbox h ibb (pos.x - sp.x) (pos.y - sp.y)) st2.anns }
      | _, _, _, _ => st2
    else st
  else st

/-- Models `handleCanvasMouseUp` (lines 1092-1133): a move/resize drag just
clears its handle state (the bbox was already committed live); a
drawing drag strictly larger than 10x10 creates a pending annotation;
either way the drawing state resets. -/
def handleCanvasMouseUp (ctx : GestureCtx) (st : UIState) (pos : Pt) : UIState :=
  if ctx.mode ∧ st.isDrawing then
    match st.startPoint with
    | none => st
    | some sp =>
      if st.resHandle.isSome ∧ st.selAnnId.isSome then
        { st with resHandle := none, initialBbox := none,
                  isDrawing := false, startPoint := none, currentPoint := none }
      else
        match dragCreateBbox sp pos with
        | some bb =>
          let st2 := createAnn ctx.curType bb st
          { st2 with isDrawing := false, startPoint := none, currentPoint := none }
        | none =>
          { st with isDrawing := false, startPoint := none, currentPoint := none }
  else st

/-- Models `handleCanvasMouseLeave` (lines 1147-1162): an in-progress gesture
resets the drawing state (start/current point, resize handle) but
neither the selected annotation nor the annotation list; the
source comment says "Don't reset selected annotation when leaving
canvas, only drawing state". -/
def handleCanvasMouseLeave (st : UIState) : UIState :=
  if st.isDrawing then
    { st with isDrawing := false, startPoint := none, currentPoint := none, resHandle := none }
  else st

/-- Strict bbox normalization: positive width and height. -/
def strictBox (bb : Bbox) : Prop :=
  bb.x1 < bb.x2 ∧ bb.y1 < bb.y2

/-- Weak bbox normalization: never-inverted (possibly degenerate). -/
def weakBox (bb : Bbox) : Prop :=
  bb.x1 ≤ bb.x2 ∧ bb.y1 ≤ bb.y2

/-! # Theorems -/

/-! ## Page selection (C10) -/

theorem mem_intRange {p s e : Int} : p ∈ intRange s e ↔ s ≤ p ∧ p ≤ e := by
  simp only [intRange, List.mem_map, List.mem_range]
  constructor
  · rintro ⟨k, hk, rfl⟩
    omega
  · intro h
    exact ⟨(p - s).toNat, by omega, by omega⟩

theorem mem_jsSetDedupAux {a : Int} :
    ∀ {l seen : List Int}, a ∈ jsSetDedupAux seen l ↔ a ∈ l ∧ a ∉ seen := by
  intro l
  induction l with
  | nil => simp [jsSetDedupAux]
  | cons x xs ih =>
    intro seen
    simp only [jsSetDedupAux]
    split
    next hx =>
      rw [ih]
      simp only [List.mem_cons]
      constructor
      · rintro ⟨h1, h2⟩
        exact ⟨Or.inr h1, h2⟩
      · rintro ⟨h1 | h1, h2⟩
        · exact absurd (h1 ▸ hx) h2
        · exact ⟨h1, h2⟩
    next hx =>
      simp only [List.mem_cons, ih, List.mem_cons]
      constructor
      · rintro (rfl | ⟨h1, h2⟩)
        · exact ⟨Or.inl rfl, hx⟩
        · exact ⟨Or.inr h1, fun hs => h2 (Or.inr hs)⟩
      · rintro ⟨h1, h2⟩
        by_cases hax : a = x
        · exact Or.inl hax
        · rcases h1 with rfl | h1
          · exact absurd rfl hax
          · exact Or.inr ⟨h1, fun hs => by rcases hs with h | h; exact hax h; exact h2 h⟩

theorem nodup_jsSetDedupAux : ∀ (l seen : List Int), (jsSetDedupAux seen l).Nodup := by
  intro l
  induction l with
  | nil => intro seen; simp [jsSetDedupAux]
  | cons x xs ih =>
    intro seen
    simp only [jsSetDedupAux]
    split
    · exact ih _
    · rw [List.nodup_cons]
      refine ⟨fun hmem => ?_, ih _⟩
      rw [mem_jsSetDedupAux] at hmem
      exact hmem.2 (List.mem_cons_self _ _)

theorem pagesOfPart_eq (total : Int) (part : String) :
    pagesOfPart total part = (namedOfPart part).filter (fun i => 0 < i && i ≤ total) := by
  unfold pagesOfPart namedOfPart
  split
  · split
    · split
      · rfl
      · rfl
    · rfl
  · split
    next p hp =>
      rcases hb : (decide (0 < p) && decide (p ≤ total)) with _ | _ <;>
        simp [List.filter, hb]
    · rfl

theorem mem_parsePages {sel : String} {total p : Int} :
    p ∈ parsePages sel total ↔ p ∈ namedPages sel total ∧ 1 ≤ p ∧ p ≤ total := by
  unfold parsePages namedPages jsSetDedup
  rw [(List.perm_insertionSort _ _).mem_iff, mem_jsSetDedupAux]
  simp only [List.not_mem_nil, not_false_iff, and_true]
  split
  · simp only [mem_intRange]
    tauto
  · simp only [List.mem_flatten, List.mem_map, pagesOfPart_eq]
    constructor
    · rintro ⟨m, ⟨part, hpart, rfl⟩, hpm⟩
      rw [List.mem_filter] at hpm
      have hrange : 0 < p ∧ p ≤ total := by
        have := hpm.2
        simp only [Bool.and_eq_true, decide_eq_true_eq] at this
        exact this
      exact ⟨⟨namedOfPart part, ⟨part, hpart, rfl⟩, hpm.1⟩, by omega, hrange.2⟩
    · rintro ⟨⟨m, ⟨part, hpart, rfl⟩, hpm⟩, h1, h2⟩
      refine ⟨(namedOfPart part).filter (fun i => 0 < i && i ≤ total),
        ⟨part, hpart, rfl⟩, ?_⟩
      rw [List.mem_filter]
      exact ⟨hpm, by simp only [Bool.and_eq_true, decide_eq_true_eq]; omega⟩

theorem parsePages_pairwise (sel : String) (total : Int) :
    (parsePages sel total).Pairwise (· < ·) := by
  have h1 : (parsePages sel total).Pairwise (· ≤ ·) :=
    List.sorted_insertionSort (· ≤ ·) _
  have h2 : (parsePages sel total).Nodup :=
    ((List.perm_insertionSort (· ≤ ·) _).nodup_iff).mpr (nodup_jsSetDedupAux _ _)
  exact (h1.and h2).imp (fun h => lt_of_le_of_ne h.1 h.2)

/-- C10: the parsed page set contains exactly the in-range pages the
selection names (comma lists and dash ranges expanded, "all" giving
1..N, out-of-range entries silently dropped), deduplicated and sorted
strictly ascending; an empty result makes the operation fail with an
error and touch no page state, otherwise the current page becomes the
smallest selected page. -/
theorem pageSelect_spec (selection : String) (total : Int) (st : PageSelectState) :
    (∀ p : Int, p ∈ parsePages selection total ↔
        p ∈ namedPages selection total ∧ 1 ≤ p ∧ p ≤ total)
    ∧ (parsePages selection total).Pairwise (· < ·)
    ∧ (parsePages selection total = [] →
        handlePageSelect selection total st =
          { st with errorMsg := some "No valid pages selected" })
    ∧ (∀ p ps, parsePages selection total = p :: ps →
        (handlePageSelect selection total st).currentPage = p ∧
        (handlePageSelect selection total st).processedPages = p :: ps ∧
        (handlePageSelect selection total st).errorMsg = none ∧
        ∀ q ∈ parsePages selection total, p ≤ q) := by
  refine ⟨fun p => mem_parsePages, parsePages_pairwise _ _, ?_, ?_⟩
  · intro h
    unfold handlePageSelect
    rw [h]
    rfl
  · intro p ps h
    have hpw := parsePages_pairwise selection total
    unfold handlePageSelect
    rw [h]
    simp only [List.isEmpty_cons, List.headD_cons]
    refine ⟨rfl, rfl, rfl, ?_⟩
    rw [h] at hpw
    rw [List.pairwise_cons] at hpw
    intro q hq
    rcases List.mem_cons.mp hq with rfl | hq2
    · exact le_refl q
    · exact le_of_lt (hpw.1 q hq2)

theorem pageSelect_spec_witness :
    (3 : Int) ∈ parsePages "2,1-3,9" 3 ↔
      (3 : Int) ∈ namedPages "2,1-3,9" 3 ∧ 1 ≤ (3 : Int) ∧ (3 : Int) ≤ 3 :=
  (pageSelect_spec "2,1-3,9" 3 ⟨0, [], none⟩).1 3

/-! ## Batch annotation processing (C7) -/

theorem find?_updateFirstById_ne (l : List Ann) (i j : String) (f : Ann → Ann)
    (hf : ∀ x, (f x).id = x.id) (hij : i ≠ j) :
    (updateFirstById l i f).find? (fun x => x.id == j) = l.find? (fun x => x.id == j) := by
  induction l with
  | nil => rfl
  | cons a as ih =>
    simp only [updateFirstById]
    split
    next ha =>
      have ha2 : a.id = i := by simpa using ha
      have h1 : ((f a).id == j) = false := by
        rw [hf, ha2]
        exact beq_eq_false_iff_ne.mpr hij
      have h2 : (a.id == j) = false := by
        rw [ha2]
        exact beq_eq_false_iff_ne.mpr hij
      simp only [List.find?_cons, h1, h2]
    next ha =>
      simp only [List.find?_cons]
      cases hj : (a.id == j) with
      | true => rfl
      | false => exact ih

theorem find?_updateFirstById_eq (l : List Ann) (i : String) (f : Ann → Ann) (b : Ann)
    (hf : ∀ x, (f x).id = x.id)
    (hfind : l.find? (fun x => x.id == i) = some b) :
    (updateFirstById l i f).find? (fun x => x.id == i) = some (f b) := by
  induction l with
  | nil => simp at hfind
  | cons a as ih =>
    simp only [updateFirstById]
    split
    next ha =>
      rw [List.find?_cons_of_pos as ha] at hfind
      injection hfind with hb
      subst hb
      rw [List.find?_cons_of_pos as (show ((f a).id == i) = true by rw [hf]; exact ha)]
    next ha =>
      rw [List.find?_cons_of_neg as ha] at hfind
      rw [List.find?_cons_of_neg (updateFirstById as i f) ha]
      exact ih hfind

theorem processOne_eq (anns : List Ann) (a : Ann) (oc : CallOutcome) :
    processOne anns a oc = updateFirstById anns a.id
      (markProcessed (outcomeFlag a.atype a.bbox oc).2 (outcomeFlag a.atype a.bbox oc).1) := by
  cases oc with
  | ok res =>
    simp only [processOne, outcomeFlag]
    cases hasErrorDetect res <;> rfl
  | httpFail => rfl
  | cropFail msg => rfl

theorem fold_processOne_untouched (oc : String → CallOutcome) :
    ∀ (todo acc : List Ann) (j : String),
      (∀ x ∈ todo, x.id ≠ j) →
      ((todo.foldl (fun ac x => processOne ac x (oc x.id)) acc).find? (fun x => x.id == j))
        = acc.find? (fun x => x.id == j) := by
  intro todo
  induction todo with
  | nil => intro acc j _; rfl
  | cons x rest ih =>
    intro acc j hne
    simp only [List.foldl_cons]
    rw [ih _ _ (fun y hy => hne y (List.mem_cons_of_mem _ hy))]
    rw [processOne_eq]
    exact find?_updateFirstById_ne _ _ _ _ (fun y => rfl) (hne x (List.mem_cons_self _ _))

theorem fold_processOne_find (oc : String → CallOutcome) :
    ∀ (todo acc : List Ann) (a : Ann),
      a ∈ todo → (todo.map Ann.id).Nodup →
      acc.find? (fun x => x.id == a.id) = some a →
      ((todo.foldl (fun ac x => processOne ac x (oc x.id)) acc).find? (fun x => x.id == a.id))
        = some (markProcessed (outcomeFlag a.atype a.bbox (oc a.id)).2
                              (outcomeFlag a.atype a.bbox (oc a.id)).1 a) := by
  intro todo
  induction todo with
  | nil =>
    intro acc a ha
    cases ha
  | cons x rest ih =>
    intro acc a ha hnd hacc
    rw [List.map_cons, List.nodup_cons] at hnd
    simp only [List.foldl_cons]
    rcases List.mem_cons.mp ha with heq | ha2
    · subst heq
      have huntouched : ∀ y ∈ rest, y.id ≠ a.id := by
        intro y hy hcontra
        exact hnd.1 (by rw [← hcontra]; exact List.mem_map_of_mem Ann.id hy)
      rw [fold_processOne_untouched oc rest (processOne acc a (oc a.id)) a.id huntouched]
      rw [processOne_eq]
      exact find?_updateFirstById_eq acc a.id
        (markProcessed (outcomeFlag a.atype a.bbox (oc a.id)).2
                       (outcomeFlag a.atype a.bbox (oc a.id)).1) a (fun y => rfl) hacc
    · have hxa : x.id ≠ a.id := by
        intro hcontra
        exact hnd.1 (by rw [hcontra]; exact List.mem_map_of_mem Ann.id ha2)
      apply ih _ _ ha2 hnd.2
      rw [processOne_eq]
      rw [find?_updateFirstById_ne acc x.id a.id
        (markProcessed (outcomeFlag x.atype x.bbox (oc x.id)).2
                       (outcomeFlag x.atype x.bbox (oc x.id)).1) (fun y => rfl) hxa]
      exact hacc

theorem find?_id_of_mem_nodup (l : List Ann) (a : Ann)
    (ha : a ∈ l) (hnd : (l.map Ann.id).Nodup) :
    l.find? (fun x => x.id == a.id) = some a := by
  induction l with
  | nil => cases ha
  | cons x rest ih =>
    rw [List.map_cons, List.nodup_cons] at hnd
    rcases List.mem_cons.mp ha with heq | ha2
    · subst heq
      rw [List.find?_cons_of_pos rest (by simp)]
    · have hne : ¬ ((x.id == a.id) = true) := by
        simp only [beq_iff_eq]
        intro hcontra
        exact hnd.1 (by rw [hcontra]; exact List.mem_map_of_mem Ann.id ha2)
      rw [List.find?_cons_of_neg rest hne]
      exact ih ha2 hnd.2

/-- C7: batch processing reaches every unprocessed annotation of the
page and each annotation's final state is determined by its own
outcome alone: it ends processed, with the error flag and synthetic
result its outcome dictates — in particular a failing call marks only
that annotation processed-with-error and the loop continues.  The
second conjunct is the concrete three-annotation scenario where the
second call throws. -/
theorem processAnns_isolation (oc : String → CallOutcome) (anns : List Ann)
    (hnd : (anns.map Ann.id).Nodup) (a : Ann) (ha : a ∈ anns)
    (hp : a.processed = false) :
    (handleProcessAnns oc anns).find? (fun x => x.id == a.id)
      = some (markProcessed (outcomeFlag a.atype a.bbox (oc a.id)).2
                            (outcomeFlag a.atype a.bbox (oc a.id)).1 a)
    ∧ handleProcessAnns
        (fun i => if i = "a2" then CallOutcome.httpFail
                  else CallOutcome.ok (jobj [("title", Json.str "T")]))
        [⟨"a1", .table, ⟨0, 0, 10, 10⟩, false, false, none⟩,
         ⟨"a2", .text, ⟨0, 0, 20, 20⟩, false, false, none⟩,
         ⟨"a3", .diagram, ⟨0, 0, 30, 30⟩, false, false, none⟩]
      = [⟨"a1", .table, ⟨0, 0, 10, 10⟩, true, false, some (jobj [("title", Json.str "T")])⟩,
         ⟨"a2", .text, ⟨0, 0, 20, 20⟩, true, true,
           some (fallbackResult AnnType.text ⟨0, 0, 20, 20⟩)⟩,
         ⟨"a3", .diagram, ⟨0, 0, 30, 30⟩, true, false,
           some (jobj [("title", Json.str "T")])⟩] := by
  constructor
  · unfold handleProcessAnns
    apply fold_processOne_find
    · exact List.mem_filter.mpr ⟨ha, by simp [hp]⟩
    · exact List.Nodup.sublist ((List.filter_sublist _).map Ann.id) hnd
    · exact find?_id_of_mem_nodup anns a ha hnd
  · decide

theorem processAnns_isolation_witness :
    (handleProcessAnns
        (fun i => if i = "a2" then CallOutcome.httpFail
                  else CallOutcome.ok (jobj [("title", Json.str "T")]))
        [⟨"a1", .table, ⟨0, 0, 10, 10⟩, false, false, none⟩,
         ⟨"a2", .text, ⟨0, 0, 20, 20⟩, false, false, none⟩,
         ⟨"a3", .diagram, ⟨0, 0, 30, 30⟩, false, false, none⟩]).find?
      (fun x => x.id == "a2")
      = some ⟨"a2", .text, ⟨0, 0, 20, 20⟩, true, true,
          some (fallbackResult AnnType.text ⟨0, 0, 20, 20⟩)⟩ := by
  have h := (processAnns_isolation
    (fun i => if i = "a2" then CallOutcome.httpFail
              else CallOutcome.ok (jobj [("title", Json.str "T")]))
    [⟨"a1", .table, ⟨0, 0, 10, 10⟩, false, false, none⟩,
     ⟨"a2", .text, ⟨0, 0, 20, 20⟩, false, false, none⟩,
     ⟨"a3", .diagram, ⟨0, 0, 30, 30⟩, false, false, none⟩]
    (by decide)
    ⟨"a2", .text, ⟨0, 0, 20, 20⟩, false, false, none⟩
    (by decide) rfl).1
  simpa [outcomeFlag, markProcessed] using h

/-! ## Embedded-error detection on 2xx responses (C8) -/

theorem strContains_nil_hay (t needle : String) (h : t.data = []) (hn : needle.data ≠ []) :
    strContains t needle = false := by
  unfold strContains charsContain
  rw [h]
  simp [List.isEmpty_iff, hn]

theorem processedHasError_decomp (res : Json) :
    processedHasError res = (errorFlagB res || diagErrorB res || caseThreeB res) := by
  unfold processedHasError hasErrorDetect errorFlagB diagErrorB caseThreeB
  cases htr : jsTruthy res
  · have hgf : ∀ k, getField res k = none := by
      intro k
      cases res <;> simp_all [jsTruthy, getField]
    have hc3 : caseThreeTextValue res = none := by
      cases res <;> simp_all [jsTruthy, caseThreeTextValue]
    simp [hgf, hc3]
  · simp only [htr, Bool.not_true, if_false]
    by_cases hc1 : getField res "error" = some (Json.bool true)
    · simp [hc1]
    · have hc1b : (getField res "error" == some (Json.bool true)) = false := by
        simp [beq_iff_eq, hc1]
      rw [if_neg hc1, hc1b]
      rw [Bool.false_or]
      by_cases hc2 : (match getField res "diag_description" with
          | some (Json.str s) => !s.data.isEmpty && strContains (jsToLower s) "error"
          | _ => false) = true
      · rw [if_pos hc2, hc2]
        rfl
      · rw [if_neg hc2, eq_false_of_ne_true hc2, Bool.false_or]
        cases hc3 : caseThreeTextValue res with
        | none => rfl
        | some t =>
          cases hjt : jsIncludes t "Error" with
          | none => simp [hjt]
          | some b => simp [hjt]

/-- C8 (amended): the error flag an annotation receives from a 2xx
response is exactly `result.error === true`, or a truthy string
`diag_description` containing "error" case-insensitively, or the
first-text-line probe passing `includes('Error')` — where a probe
value that supports no `includes` call throws, and the caught
exception equally marks the annotation processed-with-error, with the
type-shaped fallback result attached.  Whenever the result has the
claim's plain shape (first text line with a string `text`), the probe
coincides with "the text contains 'Error'", and the code's
`diag_description` check coincides with the claim's. -/
theorem hasError_detection_amended (res : Json) (a : Ann) :
    processedHasError res = (errorFlagB res || diagErrorB res || caseThreeB res)
    ∧ (∀ b, hasErrorDetect res = some b →
        processOne [a] a (.ok res) = [markProcessed res b a])
    ∧ (hasErrorDetect res = none →
        processOne [a] a (.ok res) = [markProcessed (fallbackResult a.atype a.bbox) true a])
    ∧ (∀ t, firstTextLineText res = some t → caseThreeB res = strContains t "Error")
    ∧ errorFlagB res = decide (getField res "error" = some (Json.bool true))
    ∧ diagErrorB res = (match getField res "diag_description" with
        | some (Json.str s) => strContains (jsToLower s) "error"
        | _ => false) := by
  refine ⟨processedHasError_decomp res, ?_, ?_, ?_, ?_, ?_⟩
  · intro b hb
    simp [processOne, hb, updateFirstById]
  · intro hb
    simp [processOne, hb, updateFirstById]
  · intro t hft
    cases res with
    | null => simp [firstTextLineText] at hft
    | bool b => simp [firstTextLineText] at hft
    | num q => simp [firstTextLineText] at hft
    | str s => simp [firstTextLineText] at hft
    | obj fs => simp [firstTextLineText] at hft
    | arr elems =>
      cases elems with
      | nil => simp [firstTextLineText] at hft
      | cons x rest =>
        simp only [firstTextLineText] at hft
        cases hgf : getField x "text_lines" with
        | none => rw [hgf] at hft; simp at hft
        | some tl =>
          rw [hgf] at hft
          cases tl with
          | null => simp at hft
          | bool b => simp at hft
          | num q => simp at hft
          | str s => simp at hft
          | obj fs2 => simp at hft
          | arr tlElems =>
            cases tlElems with
            | nil => simp at hft
            | cons tl0 tlRest =>
              have hft2 : (match getField tl0 "text" with
                  | some (Json.str u) => some u
                  | _ => none) = some t := hft
              cases hgt : getField tl0 "text" with
              | none => rw [hgt] at hft2; simp at hft2
              | some tv =>
                rw [hgt] at hft2
                cases tv with
                | null => simp at hft2
                | bool b => simp at hft2
                | num q => simp at hft2
                | arr l2 => simp at hft2
                | obj fs3 => simp at hft2
                | str t2 =>
                  simp only [Option.some.injEq] at hft2
                  rw [← hft2]
                  have hxobj : jsTruthy x = true := by
                    cases x <;> simp_all [getField, jsTruthy]
                  have htl0obj : jsTruthy tl0 = true := by
                    cases tl0 <;> simp_all [getField, jsTruthy]
                  by_cases ht : t2.data = []
                  · have h1 : jsTruthy (Json.str t2) = false := by simp [jsTruthy, ht]
                    rw [caseThreeB]
                    simp only [caseThreeTextValue, hxobj, hgf, htl0obj, jsIndexZero,
                      hgt, h1, if_true]
                    simp [strContains_nil_hay t2 "Error" ht (by decide)]
                  · have h1 : jsTruthy (Json.str t2) = true := by simp [jsTruthy, ht]
                    rw [caseThreeB]
                    simp only [caseThreeTextValue, hxobj, hgf, htl0obj, jsIndexZero,
                      hgt, h1, if_true]
                    simp [jsTruthy, jsIncludes]
  · by_cases h : getField res "error" = some (Json.bool true) <;>
      simp [errorFlagB, h]
  · unfold diagErrorB
    cases hd : getField res "diag_description" with
    | none => rfl
    | some j =>
      cases j with
      | null => rfl
      | bool b => rfl
      | num q => rfl
      | arr l2 => rfl
      | obj fs2 => rfl
      | str s =>
        by_cases hs : s.data = []
        · have hlow : jsToLower s = ⟨[]⟩ := by simp [jsToLower, hs]
          simp [hs, hlow, strContains_nil_hay ⟨[]⟩ "error" rfl (by decide)]
        · simp [List.isEmpty_iff, hs]

theorem hasError_detection_amended_witness :
    processedHasError (jobj [("error", Json.bool true)])
      = (errorFlagB (jobj [("error", Json.bool true)])
          || diagErrorB (jobj [("error", Json.bool true)])
          || caseThreeB (jobj [("error", Json.bool true)])) :=
  (hasError_detection_amended (jobj [("error", Json.bool true)])
    ⟨"w", .text, ⟨0, 0, 1, 1⟩, false, false, none⟩).1

/-- C8 counterexample: a 2xx result whose first text line's `text` is
the number 5 meets none of the claim's three conditions, yet the
annotation ends processed-with-error: the `includes` call throws, the
exception is caught, and the fallback path marks the error. -/
theorem hasError_detection_counterexample :
    hasErrorSpecB (jarr [jobj [("text_lines", jarr [jobj [("text", Json.num 5)]])]]) = false
    ∧ processOne [⟨"a1", .text, ⟨0, 0, 10, 10⟩, false, false, none⟩]
        ⟨"a1", .text, ⟨0, 0, 10, 10⟩, false, false, none⟩
        (.ok (jarr [jobj [("text_lines", jarr [jobj [("text", Json.num 5)]])]]))
      = [⟨"a1", .text, ⟨0, 0, 10, 10⟩, true, true,
          some (fallbackResult AnnType.text ⟨0, 0, 10, 10⟩)⟩] := by
  decide

/-! ## Round trip of the coordinate transforms (C1) -/

theorem roundTrip_id_of_unit_zoom (v : ViewT) (p : Pt)
    (hz : v.zoom = 1) (hpx : v.panX = 0) (hpy : v.panY = 0)
    (hW : v.canvasW ≠ 0) (hH : v.canvasH ≠ 0) (hoW : v.ocrW ≠ 0) (hoH : v.ocrH ≠ 0)
    (hcW : v.cssW ≠ 0) (hcH : v.cssH ≠ 0)
    (hrot : v.rot = 0 ∨ v.rot = 90 ∨ v.rot = 180 ∨ v.rot = 270) :
    roundTrip v p = p := by
  have hxs : xScaleFactor v ≠ 0 := by
    unfold xScaleFactor
    split <;> exact div_ne_zero (by assumption) hoW
  have hys : yScaleFactor v ≠ 0 := by
    unfold yScaleFactor
    split <;> exact div_ne_zero (by assumption) hoH
  rcases hrot with h | h | h | h <;>
  · ext <;>
    · simp only [roundTrip, getMousePosition, clientOfCanvas, toCanvasPt, boxToCanvas,
        rectLeft, rectTop, rectW, rectH, h, hz, hpx, hpy]
      norm_num
      all_goals field_simp

/-- C1: evaluation of the transform round trip at failing and passing
inputs.  At rotation 0, zoom 2, pan (0,0), canvas 800x600 (CSS box
800x600, OCR reference 800x600), the image point (10,20) maps forward
and back to (5,10) — off by 5px, far beyond the claimed 0.5px
tolerance — because `getMousePosition` divides by the zoom and
subtracts the pan even though the bounding rect it measures already
reflects the container's CSS `translate(pan) scale(zoom)` transform.
At zoom 1 with a 50px pan the same double-compensation returns
(-40,20).  With zoom 1 and no pan the rotation part inverts exactly
(shown here at rotation 90). -/
theorem transform_roundTrip_bug :
    roundTrip ⟨0, 2, 0, 0, 800, 600, 800, 600, 800, 600, 0, 0⟩ ⟨10, 20⟩ = ⟨5, 10⟩
    ∧ (⟨5, 10⟩ : Pt) ≠ ⟨10, 20⟩
    ∧ roundTrip ⟨0, 1, 50, 0, 800, 600, 800, 600, 800, 600, 0, 0⟩ ⟨10, 20⟩ = ⟨-40, 20⟩
    ∧ roundTrip ⟨90, 1, 0, 0, 600, 800, 800, 600, 600, 800, 0, 0⟩ ⟨10, 20⟩ = ⟨10, 20⟩ := by
  refine ⟨?_, by decide, ?_, ?_⟩ <;>
    norm_num [roundTrip, getMousePosition, clientOfCanvas, toCanvasPt, boxToCanvas,
      xScaleFactor, yScaleFactor, isRot90or270, rectLeft, rectTop, rectW, rectH,
      Pt.mk.injEq]

/-! ## OCR hit-testing (C4) -/

theorem foldl_minBy_mem {α : Type} (f : α → ℚ) :
    ∀ (xs : List α) (x : α),
      (xs.foldl (fun best y => if f y < f best then y else best) x) ∈ x :: xs := by
  intro xs
  induction xs with
  | nil => intro x; exact List.mem_cons_self _ _
  | cons a as ih =>
    intro x
    simp only [List.foldl_cons]
    by_cases hc : f a < f x
    · rw [if_pos hc]
      have h := ih a
      rcases List.mem_cons.mp h with heq | hmem
      · rw [heq]; exact List.mem_cons_of_mem _ (List.mem_cons_self _ _)
      · exact List.mem_cons_of_mem _ (List.mem_cons_of_mem _ hmem)
    · rw [if_neg hc]
      have h := ih x
      rcases List.mem_cons.mp h with heq | hmem
      · rw [heq]; exact List.mem_cons_self _ _
      · exact List.mem_cons_of_mem _ (List.mem_cons_of_mem _ hmem)

theorem foldl_minBy_le {α : Type} (f : α → ℚ) :
    ∀ (xs : List α) (x : α),
      f (xs.foldl (fun best y => if f y < f best then y else best) x) ≤ f x ∧
      ∀ y ∈ xs, f (xs.foldl (fun best y => if f y < f best then y else best) x) ≤ f y := by
  intro xs
  induction xs with
  | nil => intro x; exact ⟨le_refl _, by simp⟩
  | cons a as ih =>
    intro x
    simp only [List.foldl_cons]
    by_cases hc : f a < f x
    · rw [if_pos hc]
      obtain ⟨h1, h2⟩ := ih a
      refine ⟨le_trans h1 (le_of_lt hc), fun y hy => ?_⟩
      rcases List.mem_cons.mp hy with heq | hmem
      · rw [heq]; exact h1
      · exact h2 y hmem
    · rw [if_neg hc]
      obtain ⟨h1, h2⟩ := ih x
      refine ⟨h1, fun y hy => ?_⟩
      rcases List.mem_cons.mp hy with heq | hmem
      · rw [heq]; exact le_trans h1 (not_lt.mp hc)
      · exact h2 y hmem

theorem firstMinBy_spec {α : Type} (f : α → ℚ) (l : List α) (x : α)
    (hx : firstMinBy f l = some x) : x ∈ l ∧ ∀ y ∈ l, f x ≤ f y := by
  cases l with
  | nil => simp [firstMinBy] at hx
  | cons x0 xs =>
    simp only [firstMinBy, Option.some.injEq] at hx
    subst hx
    refine ⟨foldl_minBy_mem f xs x0, fun y hy => ?_⟩
    obtain ⟨h1, h2⟩ := foldl_minBy_le f xs x0
    rcases List.mem_cons.mp hy with heq | hmem
    · rw [heq]; exact h1
    · exact h2 y hmem

theorem firstMinBy_isSome {α : Type} (f : α → ℚ) (x0 : α) (xs : List α) :
    ∃ m, firstMinBy f (x0 :: xs) = some m := by
  simp [firstMinBy]

/-- C4: OCR hit-testing considers boxes within
`margin = max(3, 8/zoom)` of the point; with no candidate it returns
no target; a returned box is always a candidate; when any candidate
directly contains the point, the returned box directly contains it and
has minimal area among containing candidates; when no candidate
contains it, the returned box minimizes the distance from its center
to the point. -/
theorem findBox_spec (zoom : ℚ) (lines : List TextLine) (p : Pt) :
    marginFor zoom = max 3 (8 / zoom)
    ∧ (lines.filter (isNearbyB (marginFor zoom) p) = [] ↔
        findBoxAtPosition zoom lines p = none)
    ∧ (∀ l, findBoxAtPosition zoom lines p = some l →
        l ∈ lines.filter (isNearbyB (marginFor zoom) p))
    ∧ (∀ d ∈ lines.filter (isNearbyB (marginFor zoom) p), containsPtB d p = true →
        ∃ l, findBoxAtPosition zoom lines p = some l ∧ containsPtB l p = true ∧
          ∀ e ∈ lines.filter (isNearbyB (marginFor zoom) p),
            containsPtB e p = true → boxArea l ≤ boxArea e)
    ∧ ((∀ d ∈ lines.filter (isNearbyB (marginFor zoom) p), containsPtB d p = false) →
        ∀ l, findBoxAtPosition zoom lines p = some l →
          ∀ e ∈ lines.filter (isNearbyB (marginFor zoom) p),
            centerDist2 p l ≤ centerDist2 p e) := by
  have hmain : findBoxAtPosition zoom lines p =
      (if (lines.filter (isNearbyB (marginFor zoom) p)).isEmpty then none
       else if !((lines.filter (isNearbyB (marginFor zoom) p)).filter
                  (fun l => containsPtB l p)).isEmpty
            then firstMinBy boxArea ((lines.filter (isNearbyB (marginFor zoom) p)).filter
                  (fun l => containsPtB l p))
            else firstMinBy (centerDist2 p) (lines.filter (isNearbyB (marginFor zoom) p))) :=
    rfl
  refine ⟨rfl, ?_, ?_, ?_, ?_⟩
  · constructor
    · intro h
      rw [hmain, h]
      simp
    · intro h
      by_contra hne
      rw [hmain] at h
      rw [if_neg (by simp only [List.isEmpty_iff]; exact hne)] at h
      rcases hcase : (lines.filter (isNearbyB (marginFor zoom) p)).filter
          (fun l => containsPtB l p) with _ | ⟨d0, ds⟩
      · rw [hcase] at h
        simp only [List.isEmpty_nil, Bool.not_true, if_false] at h
        rcases hnb : lines.filter (isNearbyB (marginFor zoom) p) with _ | ⟨n0, ns⟩
        · exact hne hnb
        · rw [hnb] at h
          obtain ⟨m, hm⟩ := firstMinBy_isSome (centerDist2 p) n0 ns
          rw [hm] at h
          cases h
      · rw [hcase] at h
        simp only [List.isEmpty_cons, Bool.not_false, if_true] at h
        obtain ⟨m, hm⟩ := firstMinBy_isSome boxArea d0 ds
        rw [hm] at h
        cases h
  · intro l hl
    rw [hmain] at hl
    by_cases hemp : (lines.filter (isNearbyB (marginFor zoom) p)).isEmpty
    · rw [if_pos hemp] at hl
      cases hl
    · rw [if_neg hemp] at hl
      by_cases hd : ((lines.filter (isNearbyB (marginFor zoom) p)).filter
          (fun l => containsPtB l p)).isEmpty
      · rw [if_neg (by rw [hd]; decide)] at hl
        exact (firstMinBy_spec _ _ _ hl).1
      · rw [if_pos (by rw [Bool.eq_false_iff.mpr hd]; decide)] at hl
        exact List.mem_of_mem_filter (firstMinBy_spec _ _ _ hl).1
  · intro d hd hc
    have hdmem : d ∈ (lines.filter (isNearbyB (marginFor zoom) p)).filter
        (fun l => containsPtB l p) := List.mem_filter.mpr ⟨hd, hc⟩
    have hemp : ¬ (lines.filter (isNearbyB (marginFor zoom) p)).isEmpty := by
      simp only [List.isEmpty_iff]
      intro hcontra
      rw [hcontra] at hd
      cases hd
    have hdne : ¬ ((lines.filter (isNearbyB (marginFor zoom) p)).filter
        (fun l => containsPtB l p)).isEmpty := by
      simp only [List.isEmpty_iff]
      intro hcontra
      rw [hcontra] at hdmem
      cases hdmem
    rcases hcase : (lines.filter (isNearbyB (marginFor zoom) p)).filter
        (fun l => containsPtB l p) with _ | ⟨d0, ds⟩
    · exact absurd (by rw [hcase]; rfl) hdne
    · obtain ⟨m, hm⟩ := firstMinBy_isSome boxArea d0 ds
      refine ⟨m, ?_, ?_, ?_⟩
      · rw [hmain, if_neg hemp, if_pos (by rw [Bool.eq_false_iff.mpr hdne]; decide), hcase]
        exact hm
      · have := (firstMinBy_spec boxArea (d0 :: ds) m hm).1
        have hmem2 : m ∈ (lines.filter (isNearbyB (marginFor zoom) p)).filter
            (fun l => containsPtB l p) := by rw [hcase]; exact this
        exact (List.mem_filter.mp hmem2).2
      · intro e he hce
        have hemem : e ∈ d0 :: ds := by
          rw [← hcase]
          exact List.mem_filter.mpr ⟨he, hce⟩
        exact (firstMinBy_spec boxArea (d0 :: ds) m hm).2 e hemem
  · intro hall l hl e he
    have hdirect : (lines.filter (isNearbyB (marginFor zoom) p)).filter
        (fun l => containsPtB l p) = [] := by
      rw [List.filter_eq_nil_iff]
      intro a ha
      simp [hall a ha]
    rw [hmain] at hl
    by_cases hemp : (lines.filter (isNearbyB (marginFor zoom) p)).isEmpty
    · rw [if_pos hemp] at hl
      cases hl
    · rw [if_neg hemp, hdirect] at hl
      simp only [List.isEmpty_nil, Bool.not_true, if_false] at hl
      exact (firstMinBy_spec (centerDist2 p) _ _ hl).2 e he

theorem findBox_spec_witness :
    ∃ l, findBoxAtPosition 1 [⟨"big", ⟨0, 0, 40, 40⟩⟩, ⟨"small", ⟨0, 0, 10, 10⟩⟩] ⟨5, 5⟩
          = some l
      ∧ containsPtB l ⟨5, 5⟩ = true
      ∧ ∀ e ∈ [(⟨"big", ⟨0, 0, 40, 40⟩⟩ : TextLine), ⟨"small", ⟨0, 0, 10, 10⟩⟩].filter
            (isNearbyB (marginFor 1) ⟨5, 5⟩),
          containsPtB e ⟨5, 5⟩ = true → boxArea l ≤ boxArea e := by
  have h := (findBox_spec 1 [⟨"big", ⟨0, 0, 40, 40⟩⟩, ⟨"small", ⟨0, 0, 10, 10⟩⟩] ⟨5, 5⟩).2.2.2.1
    ⟨"small", ⟨0, 0, 10, 10⟩⟩ (by norm_num [marginFor, isNearbyB, List.filter])
    (by norm_num [containsPtB])
  exact h

/-! ## Annotation hit-testing (C5) -/

theorem find?_eq_head?_filter {α : Type} (p : α → Bool) (l : List α) :
    l.find? p = (l.filter p).head? := by
  induction l with
  | nil => rfl
  | cons a as ih =>
    cases hpa : p a
    · rw [List.find?_cons_of_neg as (by rw [hpa]; decide),
        List.filter_cons_of_neg (by rw [hpa]; decide)]
      exact ih
    · rw [List.find?_cons_of_pos as hpa, List.filter_cons_of_pos hpa, List.head?_cons]

theorem find?_reverse_eq_getLast?_filter {α : Type} (p : α → Bool) (l : List α) :
    l.reverse.find? p = (l.filter p).getLast? := by
  rw [find?_eq_head?_filter, List.filter_reverse, List.head?_reverse]

/-- C5: with a selected annotation in annotation mode, its delete
control and corner resize handles are tested first and win over any
body hit; otherwise (no selection, view mode, or a control miss) the
resolver returns the topmost — last in the list, i.e. highest
z-order — annotation containing the point as a move target, and no
target when none contains it (`getLast?` of the containment filter is
exactly that topmost-or-none annotation). -/
theorem findAnn_spec (xs ys : ℚ) (rot : Int) (mode : Bool) (sel : Option String)
    (anns : List Ann) (p : Pt) :
    (∀ s a h, sel = some s → anns.find? (fun x => x.id == s) = some a →
        mode = true → handleOfSelected xs ys rot a p = some h →
        findAnnAtPosition xs ys rot mode sel anns p = some (a, h))
    ∧ (anns.reverse.find? (fun a => bboxContains a.bbox p)
        = (anns.filter (fun a => bboxContains a.bbox p)).getLast?)
    ∧ (findAnnAtPosition xs ys rot false sel anns p
        = ((anns.filter (fun a => bboxContains a.bbox p)).getLast?).map
            (fun a => (a, Handle.move)))
    ∧ (∀ s a, sel = some s → anns.find? (fun x => x.id == s) = some a →
        handleOfSelected xs ys rot a p = none →
        findAnnAtPosition xs ys rot true sel anns p
          = ((anns.filter (fun a => bboxContains a.bbox p)).getLast?).map
              (fun a => (a, Handle.move)))
    ∧ (sel = none →
        findAnnAtPosition xs ys rot mode sel anns p
          = ((anns.filter (fun a => bboxContains a.bbox p)).getLast?).map
              (fun a => (a, Handle.move))) := by
  refine ⟨?_, find?_reverse_eq_getLast?_filter _ _, ?_, ?_, ?_⟩
  · intro s a h hsel hfind hmode hh
    subst hsel
    subst hmode
    cases anns with
    | nil => simp at hfind
    | cons a0 rest =>
      simp only [findAnnAtPosition, List.isEmpty_cons, if_false]
      rw [hfind] at *
      simp [hfind, hh]
  · cases anns with
    | nil => simp [findAnnAtPosition]
    | cons a0 rest =>
      cases sel with
      | none =>
        simp only [findAnnAtPosition, List.isEmpty_cons, if_false]
        rw [← find?_reverse_eq_getLast?_filter]
        simp
      | some s =>
        simp only [findAnnAtPosition, List.isEmpty_cons, if_false]
        rw [← find?_reverse_eq_getLast?_filter]
        simp
  · intro s a hsel hfind hh
    subst hsel
    cases anns with
    | nil => simp at hfind
    | cons a0 rest =>
      simp only [findAnnAtPosition, List.isEmpty_cons, if_false]
      simp [hfind, hh, ← find?_reverse_eq_getLast?_filter]
  · intro hsel
    subst hsel
    cases anns with
    | nil => simp [findAnnAtPosition]
    | cons a0 rest =>
      cases mode
      · simp only [findAnnAtPosition, List.isEmpty_cons, if_false]
        rw [← find?_reverse_eq_getLast?_filter]
        simp
      · simp only [findAnnAtPosition, List.isEmpty_cons, if_false]
        rw [← find?_reverse_eq_getLast?_filter]
        simp

theorem findAnn_spec_witness :
    findAnnAtPosition 1 1 0 true none
      [⟨"a1", .text, ⟨0, 0, 100, 100⟩, false, false, none⟩,
       ⟨"a2", .text, ⟨20, 20, 60, 60⟩, false, false, none⟩] ⟨30, 30⟩
      = some (⟨"a2", .text, ⟨20, 20, 60, 60⟩, false, false, none⟩, Handle.move) := by
  have h := (findAnn_spec 1 1 0 true none
    [⟨"a1", .text, ⟨0, 0, 100, 100⟩, false, false, none⟩,
     ⟨"a2", .text, ⟨20, 20, 60, 60⟩, false, false, none⟩] ⟨30, 30⟩).2.2.2.2 rfl
  rw [h]
  norm_num [List.filter, bboxContains]

/-! ## Resize clamping (C6) and the bbox normalization invariant (C2) -/

theorem resizeBbox_weak (h : Handle) (bb : Bbox) (dx dy : ℚ)
    (hx : bb.x1 ≤ bb.x2) (hy : bb.y1 ≤ bb.y2) :
    weakBox (resizeBbox h bb dx dy) := by
  cases h with
  | move =>
    unfold resizeBbox moveBbox weakBox
    constructor <;> dsimp only <;> linarith
  | tl => exact ⟨min_le_right _ _, min_le_right _ _⟩
  | tr => exact ⟨le_max_right _ _, min_le_right _ _⟩
  | bl => exact ⟨min_le_right _ _, le_max_right _ _⟩
  | br => exact ⟨le_max_right _ _, le_max_right _ _⟩
  | del => exact ⟨hx, hy⟩

/-- C6: every per-handle pointer-move update keeps the box
non-inverted (the two free coordinates are clamped by min/max against
the opposite fixed corner), and the claimed concrete case holds: a
top-left resize of [0,0,100,100] dragged by (150,150) yields the
degenerate [100,100,100,100]. -/
theorem resize_never_inverts (h : Handle) (bb : Bbox) (dx dy : ℚ)
    (hx : bb.x1 ≤ bb.x2) (hy : bb.y1 ≤ bb.y2) :
    weakBox (resizeBbox h bb dx dy)
    ∧ resizeBbox Handle.tl ⟨0, 0, 100, 100⟩ 150 150 = ⟨100, 100, 100, 100⟩ := by
  refine ⟨resizeBbox_weak h bb dx dy hx hy, ?_⟩
  norm_num [resizeBbox]

theorem resize_never_inverts_witness :
    weakBox (resizeBbox Handle.tl ⟨0, 0, 100, 100⟩ 150 150)
    ∧ resizeBbox Handle.tl ⟨0, 0, 100, 100⟩ 150 150 = ⟨100, 100, 100, 100⟩ :=
  resize_never_inverts Handle.tl ⟨0, 0, 100, 100⟩ 150 150 (by norm_num) (by norm_num)

/-- C2 counterexample: a resize drag is an operation that updates an
annotation bbox, and from the strictly normalized [0,0,100,100] a
top-left resize by (150,150) produces the degenerate
[100,100,100,100], which violates x1 < x2 and y1 < y2 — so the strict
invariant is not preserved by every update. -/
theorem bboxInvariant_counterexample :
    strictBox (⟨0, 0, 100, 100⟩ : Bbox)
    ∧ (handleCanvasMouseMove ⟨true, .table, 1, 1, 0⟩
        ⟨true, some ⟨0, 0⟩, some ⟨0, 0⟩, some "a1", some Handle.tl, some ⟨0, 0, 100, 100⟩,
         [⟨"a1", .table, ⟨0, 0, 100, 100⟩, false, false, none⟩], 0⟩
        ⟨150, 150⟩).anns
      = [⟨"a1", .table, ⟨100, 100, 100, 100⟩, false, false, none⟩]
    ∧ ¬ strictBox (⟨100, 100, 100, 100⟩ : Bbox) := by
  refine ⟨by norm_num [strictBox], ?_, by norm_num [strictBox]⟩
  norm_num [handleCanvasMouseMove, updateAnnBbox, resizeBbox]

/-- C2 (amended): drag-creation normalizes by min/max and — because of
the strict 10-pixel minimum — always yields a strictly normalized
bbox; moving preserves strict normalization; resizing preserves only
the weak invariant x1 ≤ x2 and y1 ≤ y2, and can collapse the box to
zero width or height. -/
theorem bboxInvariant_amended (sp pos : Pt) (bb bb2 : Bbox) (h : Handle) (dx dy : ℚ) :
    (dragCreateBbox sp pos = some bb → strictBox bb)
    ∧ (strictBox bb2 → strictBox (moveBbox bb2 dx dy))
    ∧ (weakBox bb2 → weakBox (resizeBbox h bb2 dx dy)) := by
  refine ⟨?_, ?_, fun hw => resizeBbox_weak h bb2 dx dy hw.1 hw.2⟩
  · intro hc
    unfold dragCreateBbox at hc
    split at hc
    next hcond =>
      injection hc with hc2
      subst hc2
      have hnex : sp.x ≠ pos.x := by
        intro heq
        rw [heq] at hcond
        simp at hcond
        linarith [hcond.1]
      have hney : sp.y ≠ pos.y := by
        intro heq
        rw [heq] at hcond
        simp at hcond
        linarith [hcond.2]
      exact ⟨min_lt_max.mpr hnex, min_lt_max.mpr hney⟩
    next => cases hc
  · intro hs
    unfold moveBbox strictBox at *
    constructor <;> dsimp only <;> [linarith [hs.1]; linarith [hs.2]]

theorem bboxInvariant_amended_witness :
    strictBox (⟨10, 20, 50, 80⟩ : Bbox)
    ∧ strictBox (moveBbox ⟨10, 20, 50, 80⟩ 3 4)
    ∧ weakBox (resizeBbox Handle.tl ⟨10, 20, 50, 80⟩ 0 0) := by
  have h := bboxInvariant_amended ⟨50, 80⟩ ⟨10, 20⟩ ⟨10, 20, 50, 80⟩ ⟨10, 20, 50, 80⟩
    Handle.tl 3 4
  refine ⟨h.1 (by norm_num [dragCreateBbox]), h.2.1 ?_, ?_⟩
  · norm_num [strictBox]
  · exact (bboxInvariant_amended ⟨50, 80⟩ ⟨10, 20⟩ ⟨10, 20, 50, 80⟩ ⟨10, 20, 50, 80⟩
      Handle.tl 0 0).2.2 (by norm_num [weakBox])

/-! ## Minimum-size rejection on drag creation (C3) -/

/-- C3 counterexample: a drag from (0,0) to exactly (10,10) — a 10x10
rectangle — creates no annotation, because the source requires
`width > 10 && height > 10` strictly. -/
theorem minSize_counterexample :
    (handleCanvasMouseUp ⟨true, .text, 1, 1, 0⟩
        (handleCanvasMouseDown ⟨true, .text, 1, 1, 0⟩
          ⟨false, none, none, none, none, none, [], 0⟩ ⟨0, 0⟩)
        ⟨10, 10⟩).anns = [] := by
  norm_num [handleCanvasMouseDown, handleCanvasMouseUp, findAnnAtPosition, dragCreateBbox]

/-- C3 (amended): finishing a drawing drag creates a new pending
(unprocessed) annotation with the min/max-normalized bbox exactly when
both drag dimensions are strictly greater than 10 image pixels; a drag
with either dimension at most 10 — including exactly 10x10 — creates
nothing. -/
theorem minSize_amended (ctx : GestureCtx) (st : UIState) (sp pos : Pt)
    (hm : ctx.mode = true) (hd : st.isDrawing = true) (hsp : st.startPoint = some sp)
    (hr : st.resHandle = none) :
    (10 < |pos.x - sp.x| ∧ 10 < |pos.y - sp.y| →
      (handleCanvasMouseUp ctx st pos).anns
        = st.anns ++ [⟨freshId st.nextId, ctx.curType,
            ⟨min sp.x pos.x, min sp.y pos.y, max sp.x pos.x, max sp.y pos.y⟩,
            false, false, none⟩])
    ∧ ((|pos.x - sp.x| ≤ 10 ∨ |pos.y - sp.y| ≤ 10) →
      (handleCanvasMouseUp ctx st pos).anns = st.anns) := by
  constructor
  · intro hcond
    simp [handleCanvasMouseUp, hm, hd, hsp, hr, dragCreateBbox, hcond, createAnn]
  · intro hcond
    have hneg : ¬ (10 < |pos.x - sp.x| ∧ 10 < |pos.y - sp.y|) := by
      rcases hcond with h | h
      · intro hcontra; linarith [hcontra.1]
      · intro hcontra; linarith [hcontra.2]
    simp [handleCanvasMouseUp, hm, hd, hsp, hr, dragCreateBbox, hneg]

theorem minSize_amended_witness :
    (handleCanvasMouseUp ⟨true, .text, 1, 1, 0⟩
        ⟨true, some ⟨0, 0⟩, some ⟨0, 0⟩, none, none, none, [], 0⟩ ⟨11, 11⟩).anns
      = [⟨freshId 0, AnnType.text, ⟨0, 0, 11, 11⟩, false, false, none⟩] := by
  have h := (minSize_amended ⟨true, .text, 1, 1, 0⟩
    ⟨true, some ⟨0, 0⟩, some ⟨0, 0⟩, none, none, none, [], 0⟩ ⟨0, 0⟩ ⟨11, 11⟩
    rfl rfl rfl rfl).1 (by norm_num)
  norm_num at h
  exact h

/-! ## Pointer-leave gesture cancellation (C9) -/

/-- C9 counterexample: pressing on an annotation body, moving the
pointer (which live-commits the moved bbox through the update
callback) and then leaving the canvas leaves the annotation at its
last dragged bbox [20,30,120,130], not at its pre-gesture bbox
[0,0,100,100] — while the selection indeed survives and the drawing
state is cancelled. -/
theorem gestureCancel_counterexample :
    (handleCanvasMouseLeave
      (handleCanvasMouseMove ⟨true, .text, 1, 1, 0⟩
        (handleCanvasMouseDown ⟨true, .text, 1, 1, 0⟩
          ⟨false, none, none, none, none, none,
           [⟨"a1", .text, ⟨0, 0, 100, 100⟩, false, false, none⟩], 0⟩ ⟨50, 50⟩)
        ⟨70, 80⟩)).anns
      = [⟨"a1", .text, ⟨20, 30, 120, 130⟩, false, false, none⟩]
    ∧ (handleCanvasMouseLeave
      (handleCanvasMouseMove ⟨true, .text, 1, 1, 0⟩
        (handleCanvasMouseDown ⟨true, .text, 1, 1, 0⟩
          ⟨false, none, none, none, none, none,
           [⟨"a1", .text, ⟨0, 0, 100, 100⟩, false, false, none⟩], 0⟩ ⟨50, 50⟩)
        ⟨70, 80⟩)).selAnnId = some "a1"
    ∧ (handleCanvasMouseLeave
      (handleCanvasMouseMove ⟨true, .text, 1, 1, 0⟩
        (handleCanvasMouseDown ⟨true, .text, 1, 1, 0⟩
          ⟨false, none, none, none, none, none,
           [⟨"a1", .text, ⟨0, 0, 100, 100⟩, false, false, none⟩], 0⟩ ⟨50, 50⟩)
        ⟨70, 80⟩)).isDrawing = false
    ∧ (handleCanvasMouseLeave
      (handleCanvasMouseMove ⟨true, .text, 1, 1, 0⟩
        (handleCanvasMouseDown ⟨true, .text, 1, 1, 0⟩
          ⟨false, none, none, none, none, none,
           [⟨"a1", .text, ⟨0, 0, 100, 100⟩, false, false, none⟩], 0⟩ ⟨50, 50⟩)
        ⟨70, 80⟩)).anns
      ≠ [⟨"a1", .text, ⟨0, 0, 100, 100⟩, false, false, none⟩] := by
  norm_num [handleCanvasMouseDown, handleCanvasMouseMove, handleCanvasMouseLeave,
    findAnnAtPosition, bboxContains, updateAnnBbox, resizeBbox, moveBbox,
    List.find?, List.filter]

/-- C9 (amended): pointer-leave cancels the gesture state (drawing
flag, start/current point, resize handle) without any further commit —
the annotation list is untouched, so live-committed move/resize
updates persist and no drawing ever creates an annotation on leave —
and the selected annotation stays selected. -/
theorem gestureCancel_amended (st : UIState) :
    (handleCanvasMouseLeave st).anns = st.anns
    ∧ (handleCanvasMouseLeave st).selAnnId = st.selAnnId
    ∧ (handleCanvasMouseLeave st).isDrawing = false
    ∧ (st.isDrawing = true →
        (handleCanvasMouseLeave st).startPoint = none
        ∧ (handleCanvasMouseLeave st).currentPoint = none
        ∧ (handleCanvasMouseLeave st).resHandle = none) := by
  unfold handleCanvasMouseLeave
  split
  next h => simp
  next h =>
    have h2 : st.isDrawing = false := by
      cases hb : st.isDrawing
      · rfl
      · exact absurd hb h
    simp [h2]

theorem gestureCancel_amended_witness :
    (handleCanvasMouseLeave ⟨true, some ⟨1, 1⟩, some ⟨1, 1⟩, some "a9", some Handle.move,
        some ⟨0, 0, 5, 5⟩, [], 0⟩).startPoint = none
    ∧ (handleCanvasMouseLeave ⟨true, some ⟨1, 1⟩, some ⟨1, 1⟩, some "a9", some Handle.move,
        some ⟨0, 0, 5, 5⟩, [], 0⟩).currentPoint = none
    ∧ (handleCanvasMouseLeave ⟨true, some ⟨1, 1⟩, some ⟨1, 1⟩, some "a9", some Handle.move,
        some ⟨0, 0, 5, 5⟩, [], 0⟩).resHandle = none :=
  (gestureCancel_amended ⟨true, some ⟨1, 1⟩, some ⟨1, 1⟩, some "a9", some Handle.move,
    some ⟨0, 0, 5, 5⟩, [], 0⟩).2.2.2 rfl

end ExtractionMapping
